import Mathlib

/-!
Verification of the breez-sdk-ark synchronization and ledger-reconciliation
subsystem, shallowly embedded from the Rust sources:

* `src/lib/core/src/models.rs` — `Payment`, `PaymentType`, `PaymentStatus`,
  `OffchainBalance`, and the normalization `impl From<ArkTransaction> for Payment`.
* `src/lib/core/src/persist/sqlite.rs` — `SqliteStorage::save_payments`,
  `list_payments`, `get_offchain_balance`, `save_offchain_balance`.
* `src/lib/core/src/chain/esplora.rs` — `EsploraBlockchain::find_outpoints`.
* `src/lib/core/src/events.rs` — `EventEmitter::emit`.
* `src/lib/core/src/lib.rs` — `BreezSdk::sync_wallet_internal`.

Machine integers are embedded as `Nat` (`u64`, `u32`) and `Int` (`i64`), with
explicit reduction modulo `2 ^ 64` where Rust performs an `as u64` cast.
Fallible operations are embedded with `Option`/`Except`; a Rust `unwrap` whose
operand fails (a panic aborting the call) is embedded as a `none` result.
-/

/-! ## Data model (`models.rs`) -/

/-- `PaymentType` from `models.rs`: type of payment. -/
inductive PaymentType where
  | Sent
  | Received
deriving Repr, DecidableEq

/-- `PaymentStatus` from `models.rs`: status of a payment. -/
inductive PaymentStatus where
  | Pending
  | Completed
  | Failed
  | Expired
deriving Repr, DecidableEq

/-- `Payment` from `models.rs`: the canonical ledger record. -/
structure Payment where
  id : String
  payment_type : PaymentType
  status : PaymentStatus
  amount : Nat
  fees : Nat
  timestamp : Nat
  description : Option String
  destination : Option String
deriving Repr, DecidableEq

/-- `OffchainBalance` from `models.rs`. -/
structure OffchainBalance where
  pending_sats : Nat
  confirmed_sats : Nat
deriving Repr, DecidableEq

/-- `OffchainBalance::default()` (serde `Default` derive): all fields zero. -/
def OffchainBalance.default : OffchainBalance :=
  { pending_sats := 0, confirmed_sats := 0 }

/-- `OffchainBalance::total_sats`. -/
def OffchainBalance.total_sats (b : OffchainBalance) : Nat :=
  b.pending_sats + b.confirmed_sats

/-- `ark_core::ArkTransaction`, the protocol-client transaction-history entry
consumed by `impl From<ArkTransaction> for Payment` in `models.rs`.  A bitcoin
`Amount` is embedded by its `to_sat()` value (`Nat`), a `SignedAmount` by its
`to_sat()` value (`Int`), and a `Txid` by its string rendering. -/
inductive ArkTransaction where
  | Boarding (txid : String) (amount : Nat) (confirmed_at : Option Int)
  | Round (txid : String) (amount : Int) (created_at : Int)
  | Redeem (txid : String) (amount : Int) (is_settled : Bool) (created_at : Int)
deriving Repr, DecidableEq

/-- Modelled from the spec: `ArkTransaction::created_at` lives in the external
`ark_core` dependency, not in this repository.  The spec (section 3) only says the
timestamp is the source of sort order; for `Round` and `Redeem` the entry carries
`created_at` directly, and for `Boarding` the creation time is derived from the
confirmation time (an unconfirmed boarding gets the maximal `i64`). -/
def ArkTransaction.created_at : ArkTransaction → Int
  | .Boarding _ _ confirmed_at => confirmed_at.getD (2 ^ 63 - 1)
  | .Round _ _ c => c
  | .Redeem _ _ _ c => c

/-- Rust `as u64` cast of an `i64` value: reduction modulo `2 ^ 64`. -/
def i64AsU64 (x : Int) : Nat :=
  (x % (2 ^ 64 : Int)).toNat

/-- `impl From<ArkTransaction> for Payment` from `models.rs`.
`SignedAmount::is_positive` is `0 < amount`; `amount.to_sat().abs() as u64`
is `Int.natAbs`. -/
def Payment.ofArkTransaction (tx : ArkTransaction) : Payment :=
  match tx with
  | .Boarding txid amount confirmed_at =>
      { id := txid
        payment_type := PaymentType.Received
        status :=
          match confirmed_at with
          | some _ => PaymentStatus.Completed
          | none => PaymentStatus.Pending
        amount := amount
        fees := 0
        timestamp := i64AsU64 tx.created_at
        description := none
        destination := none }
  | .Round txid amount created_at =>
      { id := txid
        payment_type :=
          if 0 < amount then PaymentType.Received else PaymentType.Sent
        status := PaymentStatus.Completed
        amount := amount.natAbs
        fees := 0
        timestamp := i64AsU64 created_at
        description := none
        destination := none }
  | .Redeem txid amount is_settled created_at =>
      { id := txid
        payment_type :=
          if 0 < amount then PaymentType.Received else PaymentType.Sent
        status :=
          if is_settled then PaymentStatus.Completed else PaymentStatus.Pending
        amount := amount.natAbs
        fees := 0
        timestamp := i64AsU64 created_at
        description := none
        destination := none }

/-- C4: the normalization from a protocol-client transaction-history entry to a
`Payment`: a `Boarding` entry maps to direction `Received`, status `Completed`
iff `confirmed_at` is present, fees `0`, amount the boarding amount; `Round` and
`Redeem` entries map direction from the sign of the signed amount (positive →
`Received`, negative → `Sent`) with amount its absolute value; a `Round` entry is
always `Completed`; a `Redeem` entry is `Completed` iff `is_settled`. -/
theorem normalization_mapping :
    (∀ (txid : String) (amount : Nat) (c : Option Int),
      (Payment.ofArkTransaction (ArkTransaction.Boarding txid amount c)).payment_type
          = PaymentType.Received ∧
      (Payment.ofArkTransaction (ArkTransaction.Boarding txid amount c)).status
          = (if c.isSome then PaymentStatus.Completed else PaymentStatus.Pending) ∧
      (Payment.ofArkTransaction (ArkTransaction.Boarding txid amount c)).fees = 0 ∧
      (Payment.ofArkTransaction (ArkTransaction.Boarding txid amount c)).amount = amount) ∧
    (∀ (txid : String) (a ca : Int),
      (0 < a →
        (Payment.ofArkTransaction (ArkTransaction.Round txid a ca)).payment_type
          = PaymentType.Received) ∧
      (a < 0 →
        (Payment.ofArkTransaction (ArkTransaction.Round txid a ca)).payment_type
          = PaymentType.Sent) ∧
      (Payment.ofArkTransaction (ArkTransaction.Round txid a ca)).amount = a.natAbs ∧
      (Payment.ofArkTransaction (ArkTransaction.Round txid a ca)).status
          = PaymentStatus.Completed) ∧
    (∀ (txid : String) (a : Int) (s : Bool) (ca : Int),
      (0 < a →
        (Payment.ofArkTransaction (ArkTransaction.Redeem txid a s ca)).payment_type
          = PaymentType.Received) ∧
      (a < 0 →
        (Payment.ofArkTransaction (ArkTransaction.Redeem txid a s ca)).payment_type
          = PaymentType.Sent) ∧
      (Payment.ofArkTransaction (ArkTransaction.Redeem txid a s ca)).amount = a.natAbs ∧
      (Payment.ofArkTransaction (ArkTransaction.Redeem txid a s ca)).status
          = (if s then PaymentStatus.Completed else PaymentStatus.Pending)) := by
  refine ⟨fun txid amount c => ⟨rfl, ?_, rfl, rfl⟩,
          fun txid a ca => ⟨fun h => ?_, fun h => ?_, rfl, rfl⟩,
          fun txid a s ca => ⟨fun h => ?_, fun h => ?_, rfl, rfl⟩⟩
  · cases c <;> rfl
  · simp [Payment.ofArkTransaction, if_pos h]
  · simp [Payment.ofArkTransaction, if_neg (by omega : ¬ 0 < a)]
  · simp [Payment.ofArkTransaction, if_pos h]
  · simp [Payment.ofArkTransaction, if_neg (by omega : ¬ 0 < a)]

/-- Witness for C4, at the spec's own examples: a pending boarding, a positive
round, and a settled redeem of `-1000`. -/
theorem normalization_mapping_witness :
    (Payment.ofArkTransaction (ArkTransaction.Boarding "b" 5 none)).status
        = PaymentStatus.Pending ∧
    (Payment.ofArkTransaction (ArkTransaction.Round "r" 3 7)).payment_type
        = PaymentType.Received ∧
    (Payment.ofArkTransaction (ArkTransaction.Redeem "x" (-1000) true 7)).payment_type
        = PaymentType.Sent ∧
    (Payment.ofArkTransaction (ArkTransaction.Redeem "x" (-1000) true 7)).amount = 1000 := by
  refine ⟨?_, ?_, ?_, ?_⟩
  · exact (normalization_mapping.1 "b" 5 none).2.1
  · exact (normalization_mapping.2.1 "r" 3 7).1 (by decide)
  · exact (normalization_mapping.2.2 "x" (-1000) true 7).2.1 (by decide)
  · exact (normalization_mapping.2.2 "x" (-1000) true 7).2.2.1

/-- C10: every `Payment` produced by the normalization — for all three variants —
has `fees = 0`, `description = None`, and `destination = None`. -/
theorem normalization_fees_description_destination (tx : ArkTransaction) :
    (Payment.ofArkTransaction tx).fees = 0 ∧
    (Payment.ofArkTransaction tx).description = none ∧
    (Payment.ofArkTransaction tx).destination = none := by
  cases tx <;> exact ⟨rfl, rfl, rfl⟩

/-! ## Ledger Store (`persist/sqlite.rs`) -/

namespace SqliteStorage

/-- The `payments` table of `sqlite.rs`, embedded as the list of its rows in
rowid order.  `id` is the `PRIMARY KEY`; SQLite's `INSERT OR REPLACE` deletes
any conflicting row and inserts the fresh row. -/
abbrev PaymentsTable := List Payment

/-- One `INSERT OR REPLACE INTO payments ... VALUES (p)` statement. -/
def insertOrReplace (t : PaymentsTable) (p : Payment) : PaymentsTable :=
  t.filter (fun q => q.id ≠ p.id) ++ [p]

/-- The `payment_ids` vector collected by `save_payments`. -/
def paymentIds (ps : List Payment) : List String :=
  ps.map Payment.id

/-- `SqliteStorage::save_payments` (sqlite.rs lines 141-201), success path:
within one transaction, `INSERT OR REPLACE` every payment of the input in
order, then `DELETE FROM payments WHERE id NOT IN (payment_ids)` — or
`DELETE FROM payments` when the input list is empty. -/
def save_payments (ps : List Payment) (t : PaymentsTable) : PaymentsTable :=
  let afterUpserts := ps.foldl insertOrReplace t
  if ps.isEmpty then
    []
  else
    afterUpserts.filter (fun q => q.id ∈ paymentIds ps)

/-- `SqliteStorage::list_payments` orders rows by `timestamp DESC`. -/
def tsDesc (a b : Payment) : Prop :=
  b.timestamp ≤ a.timestamp

instance : DecidableRel tsDesc :=
  fun a b => Nat.decLe b.timestamp a.timestamp

instance : IsTotal Payment tsDesc :=
  ⟨fun a b => Nat.le_total b.timestamp a.timestamp⟩

instance : IsTrans Payment tsDesc :=
  ⟨fun _ _ _ h1 h2 => Nat.le_trans h2 h1⟩

/-- `SqliteStorage::list_payments` (sqlite.rs lines 264-325): rows ordered by
`timestamp` descending, then `LIMIT limit OFFSET offset`.  SQLite's unspecified
order among equal timestamps is realized by a stable sort of the table rows. -/
def list_payments (t : PaymentsTable) (offset limit : Nat) : List Payment :=
  ((List.insertionSort tsDesc t).drop offset).take limit

/-- Upserting all payments splits the table into the untouched rows (ids
absent from the input) followed by the rows built from the input alone. -/
theorem foldl_insertOrReplace_eq (ps : List Payment) :
    ∀ t : PaymentsTable,
      ps.foldl insertOrReplace t =
        t.filter (fun q => q.id ∉ paymentIds ps) ++ ps.foldl insertOrReplace [] := by
  induction ps with
  | nil => intro t; simp [paymentIds]
  | cons p ps ih =>
      intro t
      have step : ∀ u : PaymentsTable,
          (p :: ps).foldl insertOrReplace u = ps.foldl insertOrReplace (insertOrReplace u p) := by
        intro u; rfl
      rw [step t, ih (insertOrReplace t p), step [], ih (insertOrReplace [] p)]
      have hins : insertOrReplace ([] : PaymentsTable) p = [p] := rfl
      rw [hins]
      have hfilter :
          (insertOrReplace t p).filter (fun q => q.id ∉ paymentIds ps) =
            t.filter (fun q => q.id ∉ paymentIds (p :: ps)) ++
              ([p] : PaymentsTable).filter (fun q => q.id ∉ paymentIds ps) := by
        rw [insertOrReplace, List.filter_append, List.filter_filter]
        have hcong :
            t.filter (fun q => decide (q.id ∉ paymentIds ps) && decide (q.id ≠ p.id)) =
              t.filter (fun q => q.id ∉ paymentIds (p :: ps)) := by
          apply List.filter_congr
          intro a _
          by_cases h1 : a.id = p.id <;> by_cases h2 : a.id ∈ paymentIds ps <;>
            simp [paymentIds, h1, h2]
        rw [hcong]
      rw [hfilter, List.append_assoc]

/-- `save_payments` is insensitive to the prior table: the delete phase removes
every row the upsert phase did not (re)create. -/
theorem save_payments_indep (ps : List Payment) (t : PaymentsTable) :
    save_payments ps t = save_payments ps [] := by
  by_cases hps : ps.isEmpty
  · simp [save_payments, hps]
  · simp only [save_payments, hps, if_neg, Bool.false_eq_true, not_false_iff]
    rw [foldl_insertOrReplace_eq ps t, foldl_insertOrReplace_eq ps []]
    simp only [List.filter_append, List.filter_filter]
    have hdead : ∀ u : PaymentsTable,
        u.filter (fun q => decide (q.id ∈ paymentIds ps) && decide (q.id ∉ paymentIds ps)) =
          [] := by
      intro u
      apply List.filter_eq_nil_iff.mpr
      intro a _
      by_cases h : a.id ∈ paymentIds ps <;> simp [h]
    rw [hdead t, hdead []]
    simp

/-- With duplicate-free ids in the input, the upsert phase from an empty table
reproduces exactly the input list. -/
theorem foldl_insertOrReplace_nil (ps : List Payment)
    (hps : (paymentIds ps).Nodup) : ps.foldl insertOrReplace [] = ps := by
  induction ps with
  | nil => rfl
  | cons p ps ih =>
      have hrest : (paymentIds ps).Nodup := (List.nodup_cons.mp hps).2
      have hid : p.id ∉ paymentIds ps := (List.nodup_cons.mp hps).1
      have step : (p :: ps).foldl insertOrReplace [] =
          ps.foldl insertOrReplace (insertOrReplace [] p) := rfl
      rw [step]
      have hins : insertOrReplace ([] : PaymentsTable) p = [p] := rfl
      rw [hins, foldl_insertOrReplace_eq ps [p], ih hrest]
      have : ([p] : PaymentsTable).filter (fun q => q.id ∉ paymentIds ps) = [p] := by
        simp [hid]
      rw [this]
      rfl

/-- `INSERT OR REPLACE` preserves the `PRIMARY KEY` uniqueness of `id`. -/
theorem insertOrReplace_nodup (t : PaymentsTable) (p : Payment)
    (h : (t.map Payment.id).Nodup) :
    ((insertOrReplace t p).map Payment.id).Nodup := by
  rw [insertOrReplace, List.map_append, List.nodup_append]
  refine ⟨List.Nodup.sublist (List.Sublist.map Payment.id (List.filter_sublist t)) h,
    by simp, ?_⟩
  intro a ha
  obtain ⟨q, hq, rfl⟩ := List.mem_map.mp ha
  have hne := List.of_mem_filter hq
  simp only [decide_eq_true_eq] at hne
  simp [hne]

/-- The upsert phase preserves `id` uniqueness. -/
theorem foldl_insertOrReplace_nodup (ps : List Payment) :
    ∀ t : PaymentsTable, (t.map Payment.id).Nodup →
      ((ps.foldl insertOrReplace t).map Payment.id).Nodup := by
  induction ps with
  | nil => intro t h; exact h
  | cons p ps ih =>
      intro t h
      exact ih (insertOrReplace t p) (insertOrReplace_nodup t p h)

/-- Every row of the upserted table comes from the prior table or the input. -/
theorem mem_foldl_insertOrReplace (ps : List Payment) :
    ∀ (t : PaymentsTable) (q : Payment),
      q ∈ ps.foldl insertOrReplace t → q ∈ t ∨ q ∈ ps := by
  induction ps with
  | nil => intro t q h; exact Or.inl h
  | cons p ps ih =>
      intro t q h
      rcases ih (insertOrReplace t p) q h with h1 | h1
      · rw [insertOrReplace] at h1
        rcases List.mem_append.mp h1 with h2 | h2
        · exact Or.inl (List.mem_of_mem_filter h2)
        · simp only [List.mem_singleton] at h2
          exact Or.inr (by simp [h2])
      · exact Or.inr (List.mem_cons_of_mem p h1)

/-- An `id` present in the table survives every upsert. -/
theorem mem_ids_foldl (ps : List Payment) :
    ∀ (t : PaymentsTable) (j : String), j ∈ t.map Payment.id →
      j ∈ (ps.foldl insertOrReplace t).map Payment.id := by
  induction ps with
  | nil => intro t j h; exact h
  | cons p ps ih =>
      intro t j h
      have step : (p :: ps).foldl insertOrReplace t =
          ps.foldl insertOrReplace (insertOrReplace t p) := rfl
      rw [step]
      apply ih
      rw [insertOrReplace, List.map_append]
      by_cases hj : j = p.id
      · simp [hj]
      · apply List.mem_append_left
        obtain ⟨q, hq, rfl⟩ := List.mem_map.mp h
        exact List.mem_map.mpr ⟨q, List.mem_filter.mpr ⟨hq, by simp [hj]⟩, rfl⟩

/-- Every `id` of the input is present after the upsert phase. -/
theorem ids_covered_foldl (ps : List Payment) :
    ∀ (t : PaymentsTable) (i : String), i ∈ paymentIds ps →
      i ∈ (ps.foldl insertOrReplace t).map Payment.id := by
  induction ps with
  | nil => intro t i h; simp [paymentIds] at h
  | cons p ps ih =>
      intro t i h
      have step : (p :: ps).foldl insertOrReplace t =
          ps.foldl insertOrReplace (insertOrReplace t p) := rfl
      rw [step]
      have hcons : paymentIds (p :: ps) = p.id :: paymentIds ps := rfl
      rw [hcons] at h
      rcases List.mem_cons.mp h with h1 | h1
      · apply mem_ids_foldl
        rw [insertOrReplace, List.map_append]
        simp [h1]
      · exact ih (insertOrReplace t p) i h1

/-- After a successful `save_payments`, `id` uniqueness holds unconditionally. -/
theorem save_payments_nodup (ps : List Payment) (t : PaymentsTable) :
    ((save_payments ps t).map Payment.id).Nodup := by
  rw [save_payments_indep]
  by_cases hps : ps.isEmpty
  · simp [save_payments, hps]
  · simp only [save_payments, hps, Bool.false_eq_true, if_false]
    have hbase : ((ps.foldl insertOrReplace []).map Payment.id).Nodup :=
      foldl_insertOrReplace_nodup ps [] (by simp)
    exact List.Nodup.sublist (List.Sublist.map Payment.id (List.filter_sublist _)) hbase

/-- C1: a successful `save_payments(list)` leaves the store with exactly one
record per distinct `id` of the input — each a record given in the input, and
when the input carries no duplicate ids, the store holds exactly the input —
and no record whose `id` is absent; an empty input clears the store; the store
never holds two records with the same `id`. -/
theorem save_payments_reconciliation (ps t : List Payment) :
    ((save_payments ps t).map Payment.id).Nodup ∧
    (∀ q ∈ save_payments ps t, q ∈ ps) ∧
    (∀ i ∈ paymentIds ps, ∃ q ∈ save_payments ps t, q.id = i) ∧
    ((paymentIds ps).Nodup → save_payments ps t = ps) ∧
    (ps = [] → save_payments ps t = []) := by
  refine ⟨save_payments_nodup ps t, ?_, ?_, ?_, ?_⟩
  · intro q hq
    rw [save_payments_indep] at hq
    by_cases hps : ps.isEmpty
    · simp [save_payments, hps] at hq
    · simp only [save_payments, hps, Bool.false_eq_true, if_false] at hq
      rcases mem_foldl_insertOrReplace ps [] q (List.mem_of_mem_filter hq) with h | h
      · simp at h
      · exact h
  · intro i hi
    have hps : ¬ ps.isEmpty := by
      intro hempty
      rw [List.isEmpty_iff.mp hempty] at hi
      simp [paymentIds] at hi
    have hmem : i ∈ (ps.foldl insertOrReplace t).map Payment.id :=
      ids_covered_foldl ps t i hi
    obtain ⟨q, hq, rfl⟩ := List.mem_map.mp hmem
    refine ⟨q, ?_, rfl⟩
    simp only [save_payments, hps, Bool.false_eq_true, if_false]
    exact List.mem_filter.mpr ⟨hq, by simpa using hi⟩
  · intro hnodup
    by_cases hps : ps.isEmpty
    · rw [List.isEmpty_iff.mp hps]
      simp [save_payments]
    · rw [save_payments_indep]
      simp only [save_payments, hps, Bool.false_eq_true, if_false]
      rw [foldl_insertOrReplace_nil ps hnodup]
      apply List.filter_eq_self.mpr
      intro p hp
      simp [paymentIds, List.mem_map]
      exact ⟨p, hp, rfl⟩
  · intro h
    rw [h]
    simp [save_payments]

/-- Concrete ledger records for the witnesses (the spec's prune scenario with
stored payments A, B, C). -/
def paymentA : Payment :=
  { id := "A", payment_type := PaymentType.Received, status := PaymentStatus.Completed,
    amount := 1000, fees := 0, timestamp := 30, description := none, destination := none }

def paymentB : Payment :=
  { id := "B", payment_type := PaymentType.Sent, status := PaymentStatus.Pending,
    amount := 2000, fees := 0, timestamp := 20, description := none, destination := none }

def paymentC : Payment :=
  { id := "C", payment_type := PaymentType.Received, status := PaymentStatus.Pending,
    amount := 3000, fees := 0, timestamp := 10, description := none, destination := none }

/-- Witness for C1: reconciling stored `[A, B, C]` with `[A, C]` leaves exactly
`[A, C]`, and reconciling with the empty list clears the store. -/
theorem save_payments_reconciliation_witness :
    save_payments [paymentA, paymentC] [paymentA, paymentB, paymentC] = [paymentA, paymentC] ∧
    save_payments [] [paymentA, paymentB, paymentC] = [] := by
  constructor
  · exact (save_payments_reconciliation [paymentA, paymentC]
      [paymentA, paymentB, paymentC]).2.2.2.1 (by decide)
  · exact (save_payments_reconciliation [] [paymentA, paymentB, paymentC]).2.2.2.2 rfl

/-- C3: `save_payments` is idempotent — a second call with the same input
leaves the store state, and hence every `list_payments` result, unchanged. -/
theorem save_payments_idempotent (ps t : List Payment) :
    save_payments ps (save_payments ps t) = save_payments ps t ∧
    ∀ offset limit : Nat,
      list_payments (save_payments ps (save_payments ps t)) offset limit =
        list_payments (save_payments ps t) offset limit := by
  have h : save_payments ps (save_payments ps t) = save_payments ps t := by
    rw [save_payments_indep ps (save_payments ps t), save_payments_indep ps t]
  exact ⟨h, fun offset limit => by rw [h]⟩

/-- One SQL statement of the `save_payments` transaction body. -/
inductive SqlStep where
  | upsert (p : Payment)
  | deleteNotIn (ids : List String)
  | deleteAll
deriving Repr

/-- Effect of one statement on the transaction's (uncommitted) working table. -/
def SqlStep.apply (t : PaymentsTable) : SqlStep → PaymentsTable
  | .upsert p => insertOrReplace t p
  | .deleteNotIn ids => t.filter (fun q => q.id ∈ ids)
  | .deleteAll => []

/-- The statement sequence `save_payments` executes inside its transaction:
one `INSERT OR REPLACE` per input payment, then the prune statement. -/
def savePaymentsSteps (ps : List Payment) : List SqlStep :=
  ps.map SqlStep.upsert ++
    (if ps.isEmpty then [SqlStep.deleteAll] else [SqlStep.deleteNotIn (paymentIds ps)])

/-- Run the transaction's statements in order against the working table.
`oracle i` says whether the `i`-th statement succeeds (a storage fault may
strike any statement); the `?` operator aborts at the first failure. -/
def runSteps (oracle : Nat → Bool) : Nat → PaymentsTable → List SqlStep →
    Except Unit PaymentsTable
  | _, t, [] => Except.ok t
  | i, t, s :: rest =>
      if oracle i then runSteps oracle (i + 1) (s.apply t) rest
      else Except.error ()

/-- `SqliteStorage::save_payments` with explicit transactional semantics:
statements act on a working copy of the store; `tx.commit()` (which may itself
fail) publishes it, and an error return before the commit drops the rusqlite
`Transaction`, which rolls the store back to its pre-call state (SQLite
transaction semantics).  Returns the published table and the call's result. -/
def save_payments_tx (oracle : Nat → Bool) (commitOk : Bool)
    (ps : List Payment) (t : PaymentsTable) : PaymentsTable × Except Unit Unit :=
  match runSteps oracle 0 t (savePaymentsSteps ps) with
  | Except.error _ => (t, Except.error ())
  | Except.ok w => if commitOk then (w, Except.ok ()) else (t, Except.error ())

/-- When every statement succeeds, running them is folding their effects. -/
theorem runSteps_all_ok (steps : List SqlStep) :
    ∀ (i : Nat) (t : PaymentsTable),
      runSteps (fun _ => true) i t steps = Except.ok (steps.foldl SqlStep.apply t) := by
  induction steps with
  | nil => intro i t; rfl
  | cons s rest ih =>
      intro i t
      show runSteps (fun _ => true) (i + 1) (s.apply t) rest = _
      rw [ih (i + 1) (s.apply t)]
      rfl

/-- The transaction's statement effects compose to the pure reconciliation. -/
theorem foldl_savePaymentsSteps (ps : List Payment) (t : PaymentsTable) :
    (savePaymentsSteps ps).foldl SqlStep.apply t = save_payments ps t := by
  by_cases hps : ps.isEmpty
  · rw [savePaymentsSteps, if_pos hps, List.foldl_append, List.foldl_map]
    simp only [save_payments, hps, if_true]
    rfl
  · rw [savePaymentsSteps, if_neg hps, List.foldl_append, List.foldl_map]
    simp only [save_payments, hps, Bool.false_eq_true, if_false]
    rfl

/-- A run that reaches `Ok` executed every statement: its result is the fold
of the statement effects, whatever the fault oracle. -/
theorem runSteps_ok_eq (steps : List SqlStep) :
    ∀ (oracle : Nat → Bool) (i : Nat) (t w : PaymentsTable),
      runSteps oracle i t steps = Except.ok w → w = steps.foldl SqlStep.apply t := by
  induction steps with
  | nil =>
      intro oracle i t w h
      cases h
      rfl
  | cons s rest ih =>
      intro oracle i t w h
      rw [runSteps] at h
      by_cases hi : oracle i
      · rw [if_pos hi] at h
        exact ih oracle (i + 1) (s.apply t) w h
      · rw [if_neg hi] at h
        cases h

/-- C2: `save_payments` is all-or-nothing — a successful call publishes exactly
the reconciled table, a call failing at any statement (or at commit) returns an
error with the published store identical to the pre-call state, and a
fault-free run succeeds with the reconciled table. -/
theorem save_payments_atomic (oracle : Nat → Bool) (commitOk : Bool)
    (ps : List Payment) (t : PaymentsTable) :
    ((save_payments_tx oracle commitOk ps t).2 = Except.ok () →
      (save_payments_tx oracle commitOk ps t).1 = save_payments ps t) ∧
    ((save_payments_tx oracle commitOk ps t).2 = Except.error () →
      (save_payments_tx oracle commitOk ps t).1 = t) ∧
    save_payments_tx (fun _ => true) true ps t = (save_payments ps t, Except.ok ()) := by
  have hok : save_payments_tx (fun _ => true) true ps t =
      (save_payments ps t, Except.ok ()) := by
    rw [save_payments_tx, runSteps_all_ok, foldl_savePaymentsSteps]
    rfl
  refine ⟨?_, ?_, hok⟩
  · intro h
    rw [save_payments_tx] at h ⊢
    rcases hrun : runSteps oracle 0 t (savePaymentsSteps ps) with _ | w
    · rw [hrun] at h
      simp at h
    · rw [hrun] at h
      have h' : (if commitOk = true then (w, Except.ok ()) else
          (t, Except.error ())).2 = Except.ok () := h
      show (if commitOk = true then (w, Except.ok ()) else
          (t, Except.error ())).1 = save_payments ps t
      by_cases hc : commitOk
      · rw [if_pos hc]
        have hw : w = (savePaymentsSteps ps).foldl SqlStep.apply t :=
          runSteps_ok_eq (savePaymentsSteps ps) oracle 0 t w hrun
        show w = save_payments ps t
        rw [hw, foldl_savePaymentsSteps]
      · rw [if_neg hc] at h'
        simp at h'
  · intro h
    rw [save_payments_tx] at h ⊢
    rcases hrun : runSteps oracle 0 t (savePaymentsSteps ps) with _ | w
    · rfl
    · rw [hrun] at h
      have h' : (if commitOk = true then (w, Except.ok ()) else
          (t, Except.error ())).2 = Except.error () := h
      show (if commitOk = true then (w, Except.ok ()) else
          (t, Except.error ())).1 = t
      by_cases hc : commitOk
      · rw [if_pos hc] at h'
        simp at h'
      · rw [if_neg hc]

/-- Witness for C2: a fault at the first statement leaves stored `[A, B]`
untouched, and a fault-free call publishes the reconciled table. -/
theorem save_payments_atomic_witness :
    (save_payments_tx (fun _ => false) true [paymentC] [paymentA, paymentB]).1
        = [paymentA, paymentB] ∧
    save_payments_tx (fun _ => true) true [paymentC] [paymentA, paymentB]
        = (save_payments [paymentC] [paymentA, paymentB], Except.ok ()) := by
  constructor
  · exact (save_payments_atomic (fun _ => false) true [paymentC]
      [paymentA, paymentB]).2.1 rfl
  · exact (save_payments_atomic (fun _ => true) true [paymentC]
      [paymentA, paymentB]).2.2

/-- C5: for a fixed stored set, `list_payments 0 N` returns all `N` payments in
descending-timestamp order, and adjacent offset/limit windows partition the
ordered set with no gaps and no duplicates. -/
theorem list_payments_pagination (t : PaymentsTable) (k : Nat) (hk : k ≤ t.length) :
    (list_payments t 0 t.length).Perm t ∧
    List.Sorted tsDesc (list_payments t 0 t.length) ∧
    list_payments t 0 k ++ list_payments t k (t.length - k) = list_payments t 0 t.length := by
  have hperm : (List.insertionSort tsDesc t).Perm t := List.perm_insertionSort tsDesc t
  have hlen : (List.insertionSort tsDesc t).length = t.length := hperm.length_eq
  have hfull : list_payments t 0 t.length = List.insertionSort tsDesc t := by
    rw [list_payments, List.drop_zero]
    exact List.take_of_length_le (le_of_eq hlen)
  refine ⟨?_, ?_, ?_⟩
  · rw [hfull]
    exact hperm
  · rw [hfull]
    exact List.sorted_insertionSort tsDesc t
  · rw [hfull, list_payments, List.drop_zero, list_payments]
    have hdroplen : ((List.insertionSort tsDesc t).drop k).length = t.length - k := by
      rw [List.length_drop, hlen]
    rw [List.take_of_length_le (le_of_eq hdroplen)]
    exact List.take_append_drop k (List.insertionSort tsDesc t)

/-- Witness for C5: three stored payments with timestamps 10, 30, 20; the first
window of one and the adjacent window of two compose to the full descending
listing. -/
theorem list_payments_pagination_witness :
    list_payments [paymentC, paymentA, paymentB] 0 1 ++
        list_payments [paymentC, paymentA, paymentB] 1 2 =
      list_payments [paymentC, paymentA, paymentB] 0 3 ∧
    List.Sorted tsDesc (list_payments [paymentC, paymentA, paymentB] 0 3) := by
  have h := list_payments_pagination [paymentC, paymentA, paymentB] 1 (by decide)
  exact ⟨h.2.2, h.2.1⟩

/-- The `settings` key-value table of `sqlite.rs`, embedded as an association
list in rowid order (`key` is the `PRIMARY KEY`). -/
abbrev SettingsTable := List (String × String)

/-- `SqliteStorage::get_setting`: `SELECT value FROM settings WHERE key = ?`,
returning `None` when the query yields no row. -/
def get_setting (s : SettingsTable) (key : String) : Option String :=
  (s.find? (fun kv => kv.1 = key)).map Prod.snd

/-- `SqliteStorage::set_setting`: `INSERT OR REPLACE INTO settings`. -/
def set_setting (s : SettingsTable) (key value : String) : SettingsTable :=
  s.filter (fun kv => kv.1 ≠ key) ++ [(key, value)]

/-- Modelled from the spec: `serde_json` (de)serialization of `OffchainBalance`
is external library code; it is embedded as an injective rendering of the two
counters, with `deserializeBalance` the matching parse. -/
def serializeBalance (b : OffchainBalance) : String :=
  toString b.pending_sats ++ " " ++ toString b.confirmed_sats

/-- Inverse of `serializeBalance` (stand-in for `serde_json::from_str`). -/
def deserializeBalance (v : String) : Except Unit OffchainBalance :=
  match (v.splitOn " ").map String.toNat? with
  | [some p, some c] => Except.ok { pending_sats := p, confirmed_sats := c }
  | _ => Except.error ()

/-- `SqliteStorage::save_offchain_balance`: store the serialized balance under
the single `offchain_balance` key. -/
def save_offchain_balance (s : SettingsTable) (b : OffchainBalance) : SettingsTable :=
  set_setting s "offchain_balance" (serializeBalance b)

/-- `SqliteStorage::get_offchain_balance` (sqlite.rs lines 339-353): parse the
stored value, or return the default balance when no value is stored. -/
def get_offchain_balance (s : SettingsTable) : Except Unit OffchainBalance :=
  match get_setting s "offchain_balance" with
  | some v => deserializeBalance v
  | none => Except.ok OffchainBalance.default

/-- C9: on a store where no balance was ever saved, `get_offchain_balance`
succeeds with the default balance: `pending_sats = 0`, `confirmed_sats = 0`,
total `0`. -/
theorem get_offchain_balance_default (s : SettingsTable)
    (h : get_setting s "offchain_balance" = none) :
    get_offchain_balance s = Except.ok OffchainBalance.default ∧
    OffchainBalance.default.pending_sats = 0 ∧
    OffchainBalance.default.confirmed_sats = 0 ∧
    OffchainBalance.default.total_sats = 0 := by
  refine ⟨?_, rfl, rfl, rfl⟩
  have hdef : get_offchain_balance s =
      match get_setting s "offchain_balance" with
      | some v => deserializeBalance v
      | none => Except.ok OffchainBalance.default := rfl
  rw [hdef, h]

/-- Witness for C9: the freshly initialized settings table is empty. -/
theorem get_offchain_balance_default_witness :
    get_offchain_balance [] = Except.ok OffchainBalance.default ∧
    OffchainBalance.default.total_sats = 0 := by
  have h := get_offchain_balance_default [] rfl
  exact ⟨h.1, h.2.2.2⟩

end SqliteStorage

/-! ## Chain Scanner (`chain/esplora.rs`) -/

namespace Esplora

/-- One output of an esplora transaction (`vout` entry). -/
structure TxOut where
  scriptpubkey : String
  value : Nat
deriving Repr, DecidableEq

/-- Confirmation status of an esplora transaction. -/
structure TxStatus where
  block_time : Option Nat
deriving Repr, DecidableEq

/-- An esplora transaction as returned by `scripthash_txs`. -/
structure EsploraTx where
  txid : String
  status : TxStatus
  vout : List TxOut
deriving Repr, DecidableEq

/-- `esplora_client::OutputStatus`: spend status of one output. -/
structure OutputStatus where
  spent : Bool
  txid : Option String
deriving Repr, DecidableEq

/-- `OutPoint`: transaction id plus output index. -/
structure OutPoint where
  txid : String
  vout : Nat
deriving Repr, DecidableEq

/-- `ark_client::ExplorerUtxo`. -/
structure ExplorerUtxo where
  outpoint : OutPoint
  amount : Nat
  confirmation_blocktime : Option Nat
  is_spent : Bool
deriving Repr, DecidableEq

/-- The blocking esplora client, embedded as oracles for the two queries of
`find_outpoints`; the outer `none` is a failed HTTP query, whose `unwrap` in
the source aborts the call. -/
structure Client where
  scripthash_txs : String → Option (List EsploraTx)
  get_output_status : String → Nat → Option (Option OutputStatus)

/-- The discovery phase of `find_outpoints` (esplora.rs lines 25-48): every
output of every returned transaction whose script matches the address's
`script_pubkey`, collected with `is_spent = false` ("Assume the output is
unspent until we dig deeper, further down"). -/
def discoverOutputs (script : String) (txs : List EsploraTx) : List ExplorerUtxo :=
  txs.flatMap (fun tx =>
    (tx.vout.enum.filter (fun iv => iv.2.scriptpubkey = script)).map (fun iv =>
      { outpoint := { txid := tx.txid, vout := iv.1 }
        amount := iv.2.value
        confirmation_blocktime := tx.status.block_time
        is_spent := false }))

/-- The spend-status loop of `find_outpoints` (esplora.rs lines 50-69): query
each discovered output's status; an output with `spent: true` is pushed with
`is_spent = true`, an unspent or status-less output is pushed unchanged, and a
failed query (`unwrap` panic) aborts the whole call. -/
def spendStatusLoop (c : Client) : List ExplorerUtxo → Option (List ExplorerUtxo)
  | [] => some []
  | o :: rest =>
      match c.get_output_status o.outpoint.txid o.outpoint.vout with
      | none => none
      | some st =>
          match spendStatusLoop c rest with
          | none => none
          | some tail =>
              match st with
              | some s =>
                  if s.spent then some ({ o with is_spent := true } :: tail)
                  else some (o :: tail)
              | none => some (o :: tail)

/-- `EsploraBlockchain::find_outpoints` (esplora.rs lines 21-72). -/
def find_outpoints (c : Client) (script : String) : Option (List ExplorerUtxo) :=
  match c.scripthash_txs script with
  | none => none
  | some txs => spendStatusLoop c (discoverOutputs script txs)

/-- Every discovered output starts out unspent. -/
theorem discoverOutputs_unspent (script : String) (txs : List EsploraTx) :
    ∀ o ∈ discoverOutputs script txs, o.is_spent = false := by
  intro o ho
  rcases List.mem_flatMap.mp ho with ⟨tx, _, hmem⟩
  rcases List.mem_map.mp hmem with ⟨iv, _, rfl⟩
  rfl

/-- An output reported spent by the loop owes it to a successful spend-status
query that reported `spent: true`, provided every input started unspent. -/
theorem spendStatusLoop_spent_ok (c : Client) :
    ∀ os us : List ExplorerUtxo, spendStatusLoop c os = some us →
      (∀ o ∈ os, o.is_spent = false) →
      ∀ u ∈ us, u.is_spent = true →
        ∃ s : OutputStatus,
          c.get_output_status u.outpoint.txid u.outpoint.vout = some (some s) ∧
            s.spent = true := by
  intro os
  induction os with
  | nil =>
      intro us hloop _ u hu _
      cases hloop
      simp at hu
  | cons o rest ih =>
      intro us hloop hfalse u hu hspent
      rw [spendStatusLoop] at hloop
      cases hq : c.get_output_status o.outpoint.txid o.outpoint.vout with
      | none =>
          rw [hq] at hloop
          cases hloop
      | some st =>
          rw [hq] at hloop
          cases hrest : spendStatusLoop c rest with
          | none =>
              rw [hrest] at hloop
              cases hloop
          | some tail =>
              rw [hrest] at hloop
              have htail := ih tail hrest
                (fun o' ho' => hfalse o' (List.mem_cons_of_mem o ho'))
              cases st with
              | none =>
                  cases hloop
                  rcases List.mem_cons.mp hu with h1 | h1
                  · rw [h1] at hspent
                    rw [hfalse o (List.mem_cons_self o rest)] at hspent
                    cases hspent
                  · exact htail u h1 hspent
              | some s =>
                  have hloop' : (if s.spent = true then
                      some ({ o with is_spent := true } :: tail)
                    else some (o :: tail)) = some us := hloop
                  by_cases hs : s.spent
                  · rw [if_pos hs] at hloop'
                    cases hloop'
                    rcases List.mem_cons.mp hu with h1 | h1
                    · rw [h1]
                      exact ⟨s, hq, hs⟩
                    · exact htail u h1 hspent
                  · rw [if_neg hs] at hloop'
                    cases hloop'
                    rcases List.mem_cons.mp hu with h1 | h1
                    · rw [h1] at hspent
                      rw [hfalse o (List.mem_cons_self o rest)] at hspent
                      cases hspent
                    · exact htail u h1 hspent

/-- A failed spend-status query for any input makes the whole loop fail. -/
theorem spendStatusLoop_fail (c : Client) :
    ∀ os : List ExplorerUtxo,
      (∃ o ∈ os, c.get_output_status o.outpoint.txid o.outpoint.vout = none) →
      spendStatusLoop c os = none := by
  intro os
  induction os with
  | nil =>
      intro h
      rcases h with ⟨o, ho, _⟩
      simp at ho
  | cons o rest ih =>
      intro h
      rcases h with ⟨o', ho', hfail⟩
      rw [spendStatusLoop]
      rcases List.mem_cons.mp ho' with h1 | h1
      · rw [← h1, hfail]
      · cases hq : c.get_output_status o.outpoint.txid o.outpoint.vout with
        | none => rfl
        | some st =>
            rw [ih ⟨o', h1, hfail⟩]

/-- C6: every discovered output starts with `is_spent = false` and is reported
spent only after its individual spend-status query succeeds with
`spent: true`; a failed spend-status query for any single output makes the
whole `find_outpoints` call fail instead of returning a result. -/
theorem find_outpoints_spend_status (c : Client) (script : String) :
    (∀ txs, c.scripthash_txs script = some txs →
      ∀ o ∈ discoverOutputs script txs, o.is_spent = false) ∧
    (∀ us, find_outpoints c script = some us →
      ∀ u ∈ us, u.is_spent = true →
        ∃ s : OutputStatus,
          c.get_output_status u.outpoint.txid u.outpoint.vout = some (some s) ∧
            s.spent = true) ∧
    (∀ txs, c.scripthash_txs script = some txs →
      (∃ o ∈ discoverOutputs script txs,
        c.get_output_status o.outpoint.txid o.outpoint.vout = none) →
      find_outpoints c script = none) := by
  refine ⟨fun txs _ => discoverOutputs_unspent script txs, ?_, ?_⟩
  · intro us hfind u hu hspent
    rw [find_outpoints] at hfind
    cases htxs : c.scripthash_txs script with
    | none =>
        rw [htxs] at hfind
        cases hfind
    | some txs =>
        rw [htxs] at hfind
        exact spendStatusLoop_spent_ok c (discoverOutputs script txs) us hfind
          (discoverOutputs_unspent script txs) u hu hspent
  · intro txs htxs hfail
    rw [find_outpoints, htxs]
    exact spendStatusLoop_fail c (discoverOutputs script txs) hfail

/-- The single-output transaction of the witness scenario. -/
def sampleTx : EsploraTx :=
  { txid := "t1", status := { block_time := some 100 },
    vout := [{ scriptpubkey := "addr", value := 50000 }] }

/-- The one output `sampleTx` pays to `"addr"`, as discovered. -/
def sampleUtxo : ExplorerUtxo :=
  { outpoint := { txid := "t1", vout := 0 }, amount := 50000,
    confirmation_blocktime := some 100, is_spent := false }

/-- A client whose spend-status query fails on every output. -/
def failingClient : Client :=
  { scripthash_txs := fun s => if s = "addr" then some [sampleTx] else none
    get_output_status := fun _ _ => none }

/-- Witness for C6: with the spend-status query failing, `find_outpoints`
fails as a whole; and the discovery phase marks the output unspent. -/
theorem find_outpoints_spend_status_witness :
    find_outpoints failingClient "addr" = none ∧
    (∀ o ∈ discoverOutputs "addr" [sampleTx], o.is_spent = false) := by
  constructor
  · exact (find_outpoints_spend_status failingClient "addr").2.2 [sampleTx] rfl
      ⟨sampleUtxo, by decide, rfl⟩
  · exact (find_outpoints_spend_status failingClient "addr").1 [sampleTx] rfl

end Esplora

/-! ## Event Bus (`events.rs`) -/

namespace Events

/-- `SdkEvent` from events.rs. -/
inductive SdkEvent where
  | Synced
  | PaymentSucceeded (payment : Payment)
  | PaymentPending (payment : Payment)
deriving Repr, DecidableEq

/-- A registered listener's `on_event`.  `on_event` returns no value, so the
only way a Rust listener can "raise/fail" is to panic: `none` embeds a call
that panics on the event, `some ()` a normal return. -/
abbrev Listener := SdkEvent → Option Unit

/-- `EventEmitter::emit` (events.rs lines 78-83): iterate the snapshot of the
registered listeners, calling `on_event` on each.  The source wraps the calls
in no isolation (no `catch_unwind`), so a listener panic unwinds out of `emit`
and the remaining listeners are never called.  Returns the per-listener
"was invoked" flags and whether `emit` returned normally. -/
def emitRun (e : SdkEvent) : List Listener → List Bool × Bool
  | [] => ([], true)
  | l :: rest =>
      match l e with
      | none => (true :: rest.map (fun _ => false), false)
      | some _ =>
          let p := emitRun e rest
          (true :: p.1, p.2)

/-- A listener that panics on every event. -/
def panickingListener : Listener :=
  fun _ => none

/-- A listener that returns normally on every event. -/
def okListener : Listener :=
  fun _ => some ()

/-- Counterexample to C7: with two registered listeners of which the first
fails, the other listener is never invoked (its flag stays `false`) and `emit`
itself does not return normally. -/
theorem emit_isolation_fails :
    emitRun SdkEvent.Synced [panickingListener, okListener] = ([true, false], false) :=
  rfl

/-- C7 amended: `emit` invokes the listeners in sequence and a listener
failure propagates out of `emit` — every listener before the failing one is
invoked exactly once, the listeners after it are not invoked at all, and only
when every listener returns normally is each listener invoked exactly once
with `emit` returning normally. -/
theorem emit_propagates_listener_failure (e : SdkEvent) :
    (∀ ls : List Listener, (∀ l ∈ ls, l e ≠ none) →
      emitRun e ls = (ls.map (fun _ => true), true)) ∧
    (∀ (pre post : List Listener) (bad : Listener),
      (∀ l ∈ pre, l e ≠ none) → bad e = none →
      emitRun e (pre ++ bad :: post) =
        (pre.map (fun _ => true) ++ true :: post.map (fun _ => false), false)) := by
  constructor
  · intro ls
    induction ls with
    | nil => intro _; rfl
    | cons l rest ih =>
        intro h
        have hl : l e ≠ none := h l (List.mem_cons_self l rest)
        cases hle : l e with
        | none => exact absurd hle hl
        | some u =>
            have hrest := ih (fun l' hl' => h l' (List.mem_cons_of_mem l hl'))
            rw [emitRun, hle]
            rw [hrest]
            rfl
  · intro pre
    induction pre with
    | nil =>
        intro post bad _ hbad
        rw [List.nil_append, List.map_nil, List.nil_append, emitRun, hbad]
    | cons l pre ih =>
        intro post bad h hbad
        have hl : l e ≠ none := h l (List.mem_cons_self l pre)
        cases hle : l e with
        | none => exact absurd hle hl
        | some u =>
            have hpre := ih post bad (fun l' hl' => h l' (List.mem_cons_of_mem l hl')) hbad
            rw [List.cons_append, emitRun, hle, hpre]
            rfl

/-- Witness for the amended C7: one healthy listener alone is invoked with a
normal return; a healthy listener followed by a failing one leaves `emit`
failing after both were invoked. -/
theorem emit_propagates_listener_failure_witness :
    emitRun SdkEvent.Synced [okListener] = ([true], true) ∧
    emitRun SdkEvent.Synced [okListener, panickingListener] = ([true, true], false) := by
  constructor
  · exact (emit_propagates_listener_failure SdkEvent.Synced).1 [okListener]
      (by intro l hl; rw [List.mem_singleton] at hl; rw [hl]; exact fun h => Option.noConfusion h)
  · exact (emit_propagates_listener_failure SdkEvent.Synced).2 [okListener] [] panickingListener
      (by intro l hl; rw [List.mem_singleton] at hl; rw [hl]; exact fun h => Option.noConfusion h)
      rfl

end Events

/-! ## Sync Orchestrator (`lib.rs`) -/

namespace Sync

/-- The SDK's durable store: payments table plus settings table. -/
structure Store where
  payments : SqliteStorage.PaymentsTable
  settings : SqliteStorage.SettingsTable
deriving Repr

/-- Oracle for the `ark_client` calls of one sync: the balance fetch (pending
and confirmed sats) and the transaction-history fetch, each fallible. -/
structure ArkClientOracle where
  offchain_balance : Except String (Nat × Nat)
  transaction_history : Except String (List ArkTransaction)

/-- Storage-fault oracle for one sync: whether persisting the balance and the
payment reconciliation transaction succeed. -/
structure StorageOracle where
  saveBalanceOk : Bool
  savePaymentsOk : Bool

/-- `BreezSdk::sync_wallet_internal` (lib.rs lines 240-264), with
`sync_payments_to_storage` (lib.rs lines 390-406) inlined: fetch the balance,
persist it, fetch the transaction history, normalize each entry, reconcile via
`save_payments`, then emit `Synced`.  Each `?` aborts the call at the failing
step.  Returns the call's result, the resulting store, and the events emitted
during the call. -/
def sync_wallet_internal (client : ArkClientOracle) (faults : StorageOracle)
    (st : Store) : Except String Unit × Store × List Events.SdkEvent :=
  match client.offchain_balance with
  | Except.error e => (Except.error e, st, [])
  | Except.ok bal =>
      let offchain_balance : OffchainBalance :=
        { pending_sats := bal.1, confirmed_sats := bal.2 }
      if faults.saveBalanceOk then
        let st1 : Store :=
          { st with settings :=
              SqliteStorage.save_offchain_balance st.settings offchain_balance }
        match client.transaction_history with
        | Except.error e => (Except.error e, st1, [])
        | Except.ok txs =>
            let payments := txs.map Payment.ofArkTransaction
            if faults.savePaymentsOk then
              let st2 : Store :=
                { st1 with payments :=
                    SqliteStorage.save_payments payments st1.payments }
              (Except.ok (), st2, [Events.SdkEvent.Synced])
            else
              (Except.error "storage", st1, [])
      else
        (Except.error "storage", st, [])

/-- C8: a sync that fails at fetching or persisting the balance, at fetching
the history, or at the payment reconciliation returns the error to the caller
and emits no event; `Synced` is emitted exactly when every step — balance
fetch, balance persistence, history fetch, payment reconciliation — has
succeeded. -/
theorem sync_synced_iff (client : ArkClientOracle) (faults : StorageOracle)
    (st : Store) :
    (∀ e, (sync_wallet_internal client faults st).1 = Except.error e →
      (sync_wallet_internal client faults st).2.2 = []) ∧
    ((sync_wallet_internal client faults st).2.2 = [Events.SdkEvent.Synced] ↔
      (sync_wallet_internal client faults st).1 = Except.ok ()) ∧
    ((sync_wallet_internal client faults st).1 = Except.ok () ↔
      (∃ bal, client.offchain_balance = Except.ok bal) ∧
        faults.saveBalanceOk = true ∧
        (∃ txs, client.transaction_history = Except.ok txs) ∧
        faults.savePaymentsOk = true) := by
  rcases hbal : client.offchain_balance with e | bal
  · refine ⟨fun e' _ => ?_, ?_, ?_⟩
    · simp [sync_wallet_internal, hbal]
    · simp [sync_wallet_internal, hbal]
    · simp [sync_wallet_internal, hbal]
  · by_cases hsb : faults.saveBalanceOk
    · rcases hhist : client.transaction_history with e | txs
      · refine ⟨fun e' _ => ?_, ?_, ?_⟩
        · simp [sync_wallet_internal, hbal, hsb, hhist]
        · simp [sync_wallet_internal, hbal, hsb, hhist]
        · simp [sync_wallet_internal, hbal, hsb, hhist]
      · by_cases hsp : faults.savePaymentsOk
        · refine ⟨fun e' he' => ?_, ?_, ?_⟩
          · exfalso
            simp [sync_wallet_internal, hbal, hsb, hhist, hsp] at he'
          · simp [sync_wallet_internal, hbal, hsb, hhist, hsp]
          · simp [sync_wallet_internal, hbal, hsb, hhist, hsp]
        · refine ⟨fun e' _ => ?_, ?_, ?_⟩
          · simp [sync_wallet_internal, hbal, hsb, hhist, hsp]
          · simp [sync_wallet_internal, hbal, hsb, hhist, hsp]
          · simp [sync_wallet_internal, hbal, hsb, hhist, hsp]
    · refine ⟨fun e' _ => ?_, ?_, ?_⟩
      · simp [sync_wallet_internal, hbal, hsb]
      · simp [sync_wallet_internal, hbal, hsb]
      · simp [sync_wallet_internal, hbal, hsb]

/-- Client oracle whose history fetch fails. -/
def clientHistFails : ArkClientOracle :=
  { offchain_balance := Except.ok (1, 2), transaction_history := Except.error "net" }

/-- Client oracle with both fetches succeeding. -/
def clientOk : ArkClientOracle :=
  { offchain_balance := Except.ok (1, 2), transaction_history := Except.ok [] }

/-- Fault-free storage oracle. -/
def noFaults : StorageOracle :=
  { saveBalanceOk := true, savePaymentsOk := true }

/-- Empty store. -/
def emptyStore : Store :=
  { payments := [], settings := [] }

/-- Witness for C8: a failed history fetch emits nothing; a fault-free sync
emits exactly `Synced`. -/
theorem sync_synced_iff_witness :
    (sync_wallet_internal clientHistFails noFaults emptyStore).2.2 = [] ∧
    (sync_wallet_internal clientOk noFaults emptyStore).2.2 =
      [Events.SdkEvent.Synced] := by
  constructor
  · exact (sync_synced_iff clientHistFails noFaults emptyStore).1 "net" rfl
  · exact ((sync_synced_iff clientOk noFaults emptyStore).2.1).mpr rfl

end Sync
